import Mathlib

/-!
Verification of the Gomoku engine (engine.py) and the reference heuristic
strategy (main.py) from the CodeClash Gomoku repository.

The Python code is shallowly embedded: the board is a list of rows of
natural numbers (0 = empty, 1 = black stone, 2 = white stone), the mutable
game object becomes explicit state passing, the while-loops walking along a
board axis become fuel-based recursion (the fuel `board_size` is an upper
bound on the length of any in-bounds walk, since each of the four scan
directions moves one of the two coordinates by exactly one per step), and
the tournament loop of run_game becomes recursion on the remaining move
budget max_moves - move_count.  Strategies (untrusted player callables) are
embedded as plain functions from a board snapshot and a color to an outcome
that is either a raised exception, a malformed return value, or a pair of
integer coordinates.  random.random and random.choice are embedded as
explicit parameters (a color-assignment flag, a choice function).
-/

/-- Read a cell of the board, as Python board[x][y] does on in-bounds
indices.  All call sites in the source guard the indices, so the getD
defaults are never exercised on guarded paths. -/
def cell (b : List (List Nat)) (x y : Nat) : Nat :=
  (b.getD x []).getD y 0

/-- Write a cell of the board, as Python board[x][y] = v does. -/
def setCell (b : List (List Nat)) (x y : Nat) (v : Nat) : List (List Nat) :=
  b.set x ((b.getD x []).set y v)

/-- The four axis directions scanned by the engine and the bot:
horizontal, vertical and the two diagonals. -/
def directions : List (Int × Int) :=
  [(1, 0), (0, 1), (1, 1), (1, -1)]

/-- The condition of the while-loops in _check_win and is_winning_move:
the position is in bounds and holds the given stone. -/
def matchesAt (b : List (List Nat)) (n stone : Nat) (u v : Int) : Prop :=
  0 ≤ u ∧ u < (n : Int) ∧ 0 ≤ v ∧ v < (n : Int) ∧ cell b u.toNat v.toNat = stone

instance (b : List (List Nat)) (n stone : Nat) (u v : Int) :
    Decidable (matchesAt b n stone u v) := by
  unfold matchesAt
  infer_instance

/-- One directional while-loop of _check_win / is_winning_move: starting at
(nx, ny), count how many consecutive positions match, stepping by (dx, dy).
Fuel bounds the walk; board_size fuel is enough for every in-bounds walk. -/
def countDir (b : List (List Nat)) (n stone : Nat) (dx dy : Int) :
    Int → Int → Nat → Nat
  | _, _, 0 => 0
  | nx, ny, fuel + 1 =>
    if matchesAt b n stone nx ny then
      countDir b n stone dx dy (nx + dx) (ny + dy) fuel + 1
    else 0

/-- The per-axis count of _check_win / is_winning_move: 1 for the stone at
(x, y) plus the counts from the positive-direction and negative-direction
while-loops. -/
def lineTotal (b : List (List Nat)) (n stone : Nat) (x y : Int) (d : Int × Int) : Nat :=
  1 + countDir b n stone d.1 d.2 (x + d.1) (y + d.2) n
    + countDir b n stone (-d.1) (-d.2) (x - d.1) (y - d.2) n

/-- The GomokuGame dataclass of engine.py. -/
structure GomokuGame where
  board_size : Nat
  board : List (List Nat)
  current_player : String
  winner : Option String
  history : List (String × Int × Int)
deriving DecidableEq

/-- A freshly constructed GomokuGame(board_size=n): the __post_init__
board of n rows of n empty cells, black to move, no winner, no history. -/
def newGame (board_size : Nat) : GomokuGame :=
  { board_size := board_size
    board := List.replicate board_size (List.replicate board_size 0)
    current_player := "black"
    winner := none
    history := [] }

/-- GomokuGame._check_win: the move at (x, y) wins iff the count on some
axis equals exactly 5. -/
def GomokuGame.check_win (g : GomokuGame) (x y : Int) (stone : Nat) : Bool :=
  directions.any fun d => lineTotal g.board g.board_size stone x y d == 5

/-- The stone value of a color: 1 if the player is black else 2, as
computed by make_move (and by get_move in main.py). -/
def stoneOf (c : String) : Nat :=
  if c = "black" then 1 else 2

/-- The other color: white if the player is black else black, as computed
inline throughout engine.py. -/
def otherColor (c : String) : String :=
  if c = "black" then "white" else "black"

/-- The game after the two mutations of a successful make_move before the
win check: the stone is placed and the move is appended to the history. -/
def placedGame (g : GomokuGame) (x y : Int) (stone : Nat) : GomokuGame :=
  { g with
    board := setCell g.board x.toNat y.toNat stone
    history := g.history ++ [(g.current_player, x, y)] }

/-- GomokuGame.make_move: validate, place the stone, append to history,
check for a win (keeping the turn on a win) or flip the turn.  Returns the
Python boolean result together with the updated game state. -/
def GomokuGame.make_move (g : GomokuGame) (x y : Int) : Bool × GomokuGame :=
  if ¬ (0 ≤ x ∧ x < (g.board_size : Int) ∧ 0 ≤ y ∧ y < (g.board_size : Int)) then
    (false, g)
  else if cell g.board x.toNat y.toNat ≠ 0 then
    (false, g)
  else if g.winner.isSome then
    (false, g)
  else if (placedGame g x y (stoneOf g.current_player)).check_win x y (stoneOf g.current_player) then
    (true, { placedGame g x y (stoneOf g.current_player) with winner := some g.current_player })
  else
    (true, { placedGame g x y (stoneOf g.current_player) with current_player := otherColor g.current_player })

/-- GomokuGame.is_full: no row contains an empty cell. -/
def GomokuGame.is_full (g : GomokuGame) : Bool :=
  g.board.all fun row => ! row.contains 0

/-- GomokuGame.get_board_copy: returns a copy of the board; on immutable
values the row-by-row copy is the board itself. -/
def GomokuGame.get_board_copy (g : GomokuGame) : List (List Nat) :=
  g.board

/-- A value returned by a strategy call: either a value that is not a
2-element list/tuple of coercible integers (kept with its printed form for
the error message), or a coordinate pair after int() coercion. -/
inductive StratVal where
  | malformed : String → StratVal
  | pair : Int → Int → StratVal
deriving DecidableEq

/-- The outcome of invoking a strategy: the call raises an exception
(with its printed form), or returns a value. -/
inductive StratOut where
  | raise : String → StratOut
  | ret : StratVal → StratOut
deriving DecidableEq

/-- A loaded player strategy: a function from a board snapshot and the
assigned color to an invocation outcome. -/
def Strategy : Type :=
  List (List Nat) → String → StratOut

/-- The players dict of run_game: for each color, the strategy and the
player name. -/
structure Players where
  black : Strategy × String
  white : Strategy × String

/-- Lookup players[color]. -/
def Players.get (ps : Players) (color : String) : Strategy × String :=
  if color = "black" then ps.black else ps.white

/-- The result dict returned by run_game; absent keys are none. -/
structure GameResult where
  winner : String
  error : Option String := none
  history : Option (List (String × Int × Int)) := none
  players : Option Players := none

/-- The return statements after the loop of run_game: the winning player's
name, or "draw" when no winner is set. -/
def finishResult (players : Players) (g : GomokuGame) : GameResult :=
  match g.winner with
  | some w => { winner := (players.get w).2, history := some g.history, players := some players }
  | none => { winner := "draw", history := some g.history, players := some players }

/-- The while-loop of run_game, on the remaining move budget
max_moves - move_count.  Besides the result dict, the final state of the
game object is returned. -/
def runLoop (players : Players) : GomokuGame → Nat → GameResult × GomokuGame
  | g, 0 => (finishResult players g, g)
  | g, fuel + 1 =>
    if g.winner.isSome then (finishResult players g, g)
    else
      match (players.get g.current_player).1 g.get_board_copy g.current_player with
      | StratOut.raise e =>
        ({ winner := (players.get (otherColor g.current_player)).2
           error := some ((players.get g.current_player).2 ++ " raised exception: " ++ e)
           players := some players }, g)
      | StratOut.ret (StratVal.malformed s) =>
        ({ winner := (players.get (otherColor g.current_player)).2
           error := some ((players.get g.current_player).2 ++ " returned invalid move format: " ++ s)
           players := some players }, g)
      | StratOut.ret (StratVal.pair mx my) =>
        match g.make_move mx my with
        | (false, _) =>
          ({ winner := (players.get (otherColor g.current_player)).2
             error := some ((players.get g.current_player).2 ++ " made invalid move: ("
               ++ toString mx ++ ", " ++ toString my ++ ")")
             players := some players }, g)
        | (true, g1) => runLoop players g1 fuel

/-- The outcome of load_player_module: the strategy, or the exception text. -/
inductive LoadResult where
  | ok : Strategy → LoadResult
  | err : String → LoadResult

/-- run_game of engine.py.  The random color assignment is the flip
parameter.  The final state of the game object is exposed alongside the
result dict (none when loading failed before a game was created). -/
def run_game (load1 load2 : LoadResult) (flip : Bool) (board_size : Nat) :
    GameResult × Option GomokuGame :=
  match load1 with
  | LoadResult.err e =>
    ({ winner := "player2", error := some ("Failed to load player1: " ++ e) }, none)
  | LoadResult.ok p1 =>
    match load2 with
    | LoadResult.err e =>
      ({ winner := "player1", error := some ("Failed to load player2: " ++ e) }, none)
    | LoadResult.ok p2 =>
      let players : Players :=
        if flip then ⟨(p1, "player1"), (p2, "player2")⟩ else ⟨(p2, "player2"), (p1, "player1")⟩
      let r := runLoop players (newGame board_size) (board_size * board_size)
      (r.1, some r.2)

/-- One line written by write_game_log, abstracting the f.write calls. -/
inductive LogLine where
  | header : Nat → LogLine
  | timestamp : String → LogLine
  | assignment : String → String → String → LogLine
  | resultLine : String → LogLine
  | errorLine : String → LogLine
  | historyHeader : Nat → LogLine
  | historyMove : Nat → String → Int → Int → LogLine
  | footer : LogLine
deriving DecidableEq

/-- write_game_log of engine.py: header and timestamp, the per-color
player assignments, the result line, the error line when the result has
an error, and the numbered move history when the result has a history. -/
def write_game_log (game_num : Nat) (result : GameResult) (players : Players)
    (player1_path player2_path : String) (ts : String) : List LogLine :=
  [LogLine.header game_num, LogLine.timestamp ts]
  ++ (["black", "white"].map fun color =>
      LogLine.assignment color (players.get color).2
        (if (players.get color).2 = "player1" then player1_path else player2_path))
  ++ [LogLine.resultLine result.winner]
  ++ (match result.error with
      | some e => [LogLine.errorLine e]
      | none => [])
  ++ (match result.history with
      | some h =>
        LogLine.historyHeader h.length
          :: (h.enum.map fun mi => LogLine.historyMove (mi.1 + 1) mi.2.1 mi.2.2.1 mi.2.2.2)
      | none => [])
  ++ [LogLine.footer]

/-- The per-round logging decision of main: a log is produced exactly when
an output directory is configured and the result dict has a players key. -/
def roundLog (outputDir : Option String) (game_num : Nat) (result : GameResult)
    (player1_path player2_path : String) (ts : String) : Option (List LogLine) :=
  match outputDir, result.players with
  | some _, some ps => some (write_game_log game_num result ps player1_path player2_path ts)
  | _, _ => none

/-- The cells (x, y) in the order of the nested loops of main.py:
x outer, y inner (row-major). -/
def rowMajorCells (n : Nat) : List (Nat × Nat) :=
  (List.range n).flatMap fun x => (List.range n).map fun y => (x, y)

/-- is_winning_move of main.py: placing the stone at (x, y) makes the
count on some axis exactly 5.  The scan is the same line scan as
GomokuGame._check_win (the source duplicates the loop verbatim). -/
def is_winning_move (board : List (List Nat)) (x y : Nat) (stone : Nat)
    (board_size : Nat) : Bool :=
  directions.any fun d => lineTotal board board_size stone x y d == 5

/-- find_winning_move of main.py: the first empty cell in row-major order
whose placement makes exactly 5 in a row. -/
def find_winning_move (board : List (List Nat)) (stone : Nat) (board_size : Nat) :
    Option (Nat × Nat) :=
  (rowMajorCells board_size).find? fun p =>
    (cell board p.1 p.2 == 0) && is_winning_move board p.1 p.2 stone board_size

/-- The (dx, dy) offsets of has_neighbor: dx, dy in range(-2, 3). -/
def neighborDeltas : List (Int × Int) :=
  (List.range 5).flatMap fun i => (List.range 5).map fun j => ((i : Int) - 2, (j : Int) - 2)

/-- has_neighbor of main.py: some in-bounds cell within Chebyshev distance
2 of (x, y) is occupied. -/
def has_neighbor (board : List (List Nat)) (x y : Nat) (board_size : Nat) : Bool :=
  neighborDeltas.any fun d =>
    if d.1 = 0 ∧ d.2 = 0 then false
    else
      let nx := (x : Int) + d.1
      let ny := (y : Int) + d.2
      if 0 ≤ nx ∧ nx < (board_size : Int) ∧ 0 ≤ ny ∧ ny < (board_size : Int) then
        ! (cell board nx.toNat ny.toNat == 0)
      else false

/-- One directional while-loop of count_line: walk outward from (nx, ny);
own stones are counted and the walk continues; the walk stops at the first
opponent stone (counting it once) or the first empty cell (counting one
open end) or the board edge.  The triple is (my, opp, open) contributions. -/
def countLineDir (board : List (List Nat)) (n : Nat) (my_stone opp_stone : Nat)
    (dx dy : Int) : Int → Int → Nat → Nat × Nat × Nat
  | _, _, 0 => (0, 0, 0)
  | nx, ny, fuel + 1 =>
    if 0 ≤ nx ∧ nx < (n : Int) ∧ 0 ≤ ny ∧ ny < (n : Int) then
      if cell board nx.toNat ny.toNat = my_stone then
        let r := countLineDir board n my_stone opp_stone dx dy (nx + dx) (ny + dy) fuel
        (r.1 + 1, r.2.1, r.2.2)
      else if cell board nx.toNat ny.toNat = opp_stone then (0, 1, 0)
      else (0, 0, 1)
    else (0, 0, 0)

/-- count_line of main.py: the sums of the two directional walks along the
axis (dx, dy) through (x, y). -/
def count_line (board : List (List Nat)) (x y : Nat) (dx dy : Int)
    (my_stone opp_stone : Nat) (board_size : Nat) : Nat × Nat × Nat :=
  let r1 := countLineDir board board_size my_stone opp_stone dx dy
    ((x : Int) + dx) ((y : Int) + dy) board_size
  let r2 := countLineDir board board_size my_stone opp_stone (-dx) (-dy)
    ((x : Int) - dx) ((y : Int) - dy) board_size
  (r1.1 + r2.1, r1.2.1 + r2.2.1, r1.2.2 + r2.2.2)

/-- evaluate_position of main.py: center-distance base score plus the
tiered line bonuses over the four axes. -/
def evaluate_position (board : List (List Nat)) (x y : Nat)
    (my_stone opp_stone : Nat) (board_size : Nat) : Int :=
  let center := board_size / 2
  let distance : Nat := ((x : Int) - center).natAbs + ((y : Int) - center).natAbs
  let base : Int := max 0 (10 - (distance : Int))
  base + directions.foldl (fun score d =>
    let r := count_line board x y d.1 d.2 my_stone opp_stone board_size
    let my_count := r.1
    let opp_count := r.2.1
    let open_ends := r.2.2
    score
    + (if my_count ≥ 4 then 10000
       else if my_count = 3 ∧ open_ends = 2 then 1000
       else if my_count = 3 then 100
       else if my_count = 2 ∧ open_ends = 2 then 50
       else if my_count = 2 then 10
       else 0)
    + (if opp_count ≥ 4 then 5000
       else if opp_count = 3 ∧ open_ends = 2 then 500
       else if opp_count = 3 then 50
       else if opp_count = 2 ∧ open_ends = 2 then 25
       else 0)) 0

/-- The loop of find_best_move over the cells in row-major order,
keeping the best score so far (initially -1) and the list of all cells
achieving it. -/
def bestFold (board : List (List Nat)) (my_stone opp_stone : Nat)
    (board_size : Nat) : Int × List (Nat × Nat) :=
  (rowMajorCells board_size).foldl (fun acc pos =>
    if cell board pos.1 pos.2 = 0 then
      if ! has_neighbor board pos.1 pos.2 board_size then acc
      else if evaluate_position board pos.1 pos.2 my_stone opp_stone board_size > acc.1 then
        (evaluate_position board pos.1 pos.2 my_stone opp_stone board_size, [pos])
      else if evaluate_position board pos.1 pos.2 my_stone opp_stone board_size = acc.1 then
        (acc.1, acc.2 ++ [pos])
      else acc
    else acc) ((-1 : Int), ([] : List (Nat × Nat)))

/-- find_best_move of main.py: run the scoring fold; the final tie-break
random.choice over the best cells is the explicit choice parameter, and
None is returned when no cell was scored. -/
def find_best_move (board : List (List Nat)) (my_stone opp_stone : Nat)
    (board_size : Nat) (choice : List (Nat × Nat) → Nat × Nat) : Option (Nat × Nat) :=
  if _h : (bestFold board my_stone opp_stone board_size).2 = [] then none
  else some (choice (bestFold board my_stone opp_stone board_size).2)

/-- The stone of the opponent of a color: 2 if the player is black else
1, as computed by get_move in main.py. -/
def oppStoneOf (c : String) : Nat :=
  if c = "black" then 2 else 1

/-- The list comprehension of get_move collecting all empty cells, in
row-major order. -/
def emptyCells (board : List (List Nat)) (board_size : Nat) : List (Nat × Nat) :=
  (rowMajorCells board_size).filter fun p => cell board p.1 p.2 == 0

/-- get_move of main.py: immediate win, then immediate block, then the
positional search, then the center, then a random empty cell, and the
(0, 0) placeholder when the board has no empty cell at all.  The
board_size local is len(board); my_stone and opp_stone are stoneOf and
oppStoneOf of the color. -/
def get_move (board : List (List Nat)) (color : String)
    (choice : List (Nat × Nat) → Nat × Nat) : Nat × Nat :=
  match find_winning_move board (stoneOf color) board.length with
  | some m => m
  | none =>
    match find_winning_move board (oppStoneOf color) board.length with
    | some m => m
    | none =>
      match find_best_move board (stoneOf color) (oppStoneOf color) board.length choice with
      | some m => m
      | none =>
        if cell board (board.length / 2) (board.length / 2) = 0 then
          (board.length / 2, board.length / 2)
        else if _h : emptyCells board board.length = [] then (0, 0)
        else choice (emptyCells board board.length)

/-- A cell m is the first hit of the row-major scan of find_winning_move:
the scan order splits as pre ++ m :: post with no winning empty cell in
pre. -/
def firstInScan (board : List (List Nat)) (stone : Nat) (m : Nat × Nat) : Prop :=
  ∃ pre post, rowMajorCells board.length = pre ++ m :: post ∧
    ∀ p ∈ pre, ¬ (cell board p.1 p.2 = 0 ∧
      is_winning_move board p.1 p.2 stone board.length = true)

/-- A sequence of attempt_move calls against a game, each applied whether
or not the previous ones were accepted. -/
def applyMoves (g : GomokuGame) (ms : List (Int × Int)) : GomokuGame :=
  ms.foldl (fun g m => (g.make_move m.1 m.2).2) g

/-- Count of empty cells of a board. -/
def emptyCount (b : List (List Nat)) : Nat :=
  (b.map fun row => row.countP fun c => c == 0).sum

/-- Count of non-empty cells of a board. -/
def filledCount (b : List (List Nat)) : Nat :=
  (b.map fun row => row.countP fun c => ! (c == 0)).sum

/-- The board of a game is well-formed: board_size rows of board_size
cells, as __post_init__ builds it. -/
def WF (g : GomokuGame) : Prop :=
  g.board.length = g.board_size ∧ ∀ row ∈ g.board, row.length = g.board_size

/-- Concrete 5x5 board with four black stones on row 0 and the fifth cell
open: used to exercise the win search. -/
def winBoard : List (List Nat) :=
  [[1, 1, 1, 1, 0],
   [0, 0, 0, 0, 0],
   [0, 0, 0, 0, 0],
   [0, 0, 0, 0, 0],
   [0, 0, 0, 0, 0]]

/-- Concrete 5x5 board with four white stones on row 0 and the fifth cell
open: black has no win and must block. -/
def blockBoard : List (List Nat) :=
  [[2, 2, 2, 2, 0],
   [0, 0, 0, 0, 0],
   [0, 0, 0, 0, 0],
   [0, 0, 0, 0, 0],
   [0, 0, 0, 0, 0]]

/-- Concrete game state with a completed black row of five, as it stands
right after the fifth stone was placed at (0, 2). -/
def fiveRowGame : GomokuGame :=
  { board_size := 5
    board := [[1, 1, 1, 1, 1],
              [0, 0, 0, 0, 0],
              [0, 0, 0, 0, 0],
              [0, 0, 0, 0, 0],
              [0, 0, 0, 0, 0]]
    current_player := "black"
    winner := none
    history := [] }

/-- Concrete game state with four black stones on row 0, black to move:
playing (0, 4) wins. -/
def fourRowGame : GomokuGame :=
  { board_size := 5
    board := winBoard
    current_player := "black"
    winner := none
    history := [("black", 0, 0), ("white", 1, 0), ("black", 0, 1), ("white", 1, 1),
                ("black", 0, 2), ("white", 1, 2), ("black", 0, 3), ("white", 1, 3)] }

/-- A strategy that always plays (0, 0). -/
def constStrat : Strategy := fun _ _ => StratOut.ret (StratVal.pair 0 0)

/-- A strategy that always raises. -/
def raiseStrat : Strategy := fun _ _ => StratOut.raise "boom"

/-- A scripted strategy: black fills row 0 left to right, white fills
row 1, by reading the number of stones already on the board.  Black
completes five in a row on move 9. -/
def scriptStrat : Strategy := fun board color =>
  if color = "black" then StratOut.ret (StratVal.pair 0 (filledCount board / 2))
  else StratOut.ret (StratVal.pair 1 (filledCount board / 2))

/-- The 7x7 board of the count_line evaluation: a white chain of length 4
on row 0 starting next to the empty candidate cell (0, 0). -/
def oppChainBoard : List (List Nat) :=
  [[0, 2, 2, 2, 2, 0, 0],
   [0, 0, 0, 0, 0, 0, 0],
   [0, 0, 0, 0, 0, 0, 0],
   [0, 0, 0, 0, 0, 0, 0],
   [0, 0, 0, 0, 0, 0, 0],
   [0, 0, 0, 0, 0, 0, 0],
   [0, 0, 0, 0, 0, 0, 0]]

lemma countP_set_getD (p : Nat → Bool) :
    ∀ (r : List Nat) (j : Nat) (v : Nat), j < r.length →
      (r.set j v).countP p + (if p (r.getD j 0) then 1 else 0)
        = r.countP p + (if p v then 1 else 0) := by
  intro r
  induction r with
  | nil => intro j v h; simp at h
  | cons a t ih =>
    intro j v h
    cases j with
    | zero =>
      simp only [List.set, List.countP_cons, List.getD_cons_zero]
      omega
    | succ i =>
      simp only [List.set, List.countP_cons, List.getD_cons_succ]
      have := ih i v (by simpa using h)
      omega

lemma mapsum_set (f : List Nat → Nat) :
    ∀ (b : List (List Nat)) (i : Nat) (r' : List Nat), i < b.length →
      ((b.set i r').map f).sum + f (b.getD i []) = (b.map f).sum + f r' := by
  intro b
  induction b with
  | nil => intro i r' h; simp at h
  | cons a t ih =>
    intro i r' h
    cases i with
    | zero => simp [List.set]; omega
    | succ i =>
      simp only [List.set, List.map_cons, List.sum_cons, List.getD_cons_succ]
      have := ih i r' (by simpa using h)
      omega

lemma getD_mem_of_lt (b : List (List Nat)) (i : Nat) (h : i < b.length) :
    b.getD i [] ∈ b := by
  rw [List.getD_eq_getElem?_getD, List.getElem?_eq_getElem h]
  exact List.getElem_mem h



lemma emptyCount_setCell (b : List (List Nat)) (i j v : Nat)
    (hi : i < b.length) (hj : j < (b.getD i []).length)
    (h0 : cell b i j = 0) (hv : v ≠ 0) :
    emptyCount (setCell b i j v) + 1 = emptyCount b := by
  have h0' : (b.getD i []).getD j 0 = 0 := h0
  have hv2 : (v == 0) = false := beq_eq_false_iff_ne.mpr hv
  have hrow : ((b.getD i []).set j v).countP (fun c => c == 0)
        + (if ((b.getD i []).getD j 0) == 0 then 1 else 0)
      = (b.getD i []).countP (fun c => c == 0) + (if v == 0 then 1 else 0) :=
    countP_set_getD (fun c => c == 0) (b.getD i []) j v hj
  have hmap : ((b.set i ((b.getD i []).set j v)).map fun row => row.countP fun c => c == 0).sum
        + (b.getD i []).countP (fun c => c == 0)
      = (b.map fun row => row.countP fun c => c == 0).sum
        + ((b.getD i []).set j v).countP (fun c => c == 0) :=
    mapsum_set (fun row => row.countP fun c => c == 0) b i ((b.getD i []).set j v) hi
  rw [h0', hv2] at hrow
  simp only [beq_self_eq_true, if_true, Bool.false_eq_true, if_false] at hrow
  unfold emptyCount setCell
  omega

lemma filledCount_setCell (b : List (List Nat)) (i j v : Nat)
    (hi : i < b.length) (hj : j < (b.getD i []).length)
    (h0 : cell b i j = 0) (hv : v ≠ 0) :
    filledCount (setCell b i j v) = filledCount b + 1 := by
  have h0' : (b.getD i []).getD j 0 = 0 := h0
  have hv2 : (v == 0) = false := beq_eq_false_iff_ne.mpr hv
  have hrow : ((b.getD i []).set j v).countP (fun c => ! (c == 0))
        + (if ! (((b.getD i []).getD j 0) == 0) then 1 else 0)
      = (b.getD i []).countP (fun c => ! (c == 0)) + (if ! (v == 0) then 1 else 0) :=
    countP_set_getD (fun c => ! (c == 0)) (b.getD i []) j v hj
  have hmap : ((b.set i ((b.getD i []).set j v)).map fun row => row.countP fun c => ! (c == 0)).sum
        + (b.getD i []).countP (fun c => ! (c == 0))
      = (b.map fun row => row.countP fun c => ! (c == 0)).sum
        + ((b.getD i []).set j v).countP (fun c => ! (c == 0)) :=
    mapsum_set (fun row => row.countP fun c => ! (c == 0)) b i ((b.getD i []).set j v) hi
  rw [h0', hv2] at hrow
  simp only [beq_self_eq_true, Bool.not_true, Bool.not_false, if_true,
    Bool.false_eq_true, if_false] at hrow
  unfold filledCount setCell
  omega

lemma make_move_fail (g : GomokuGame) (x y : Int)
    (h : (g.make_move x y).1 = false) : (g.make_move x y).2 = g := by
  unfold GomokuGame.make_move at h ⊢
  split_ifs at h ⊢ <;> rfl

lemma make_move_success (g : GomokuGame) (x y : Int) (g' : GomokuGame)
    (h : g.make_move x y = (true, g')) :
    (0 ≤ x ∧ x < (g.board_size : Int) ∧ 0 ≤ y ∧ y < (g.board_size : Int)) ∧
    cell g.board x.toNat y.toNat = 0 ∧ g.winner = none ∧
    g'.board = setCell g.board x.toNat y.toNat (stoneOf g.current_player) ∧
    g'.board_size = g.board_size ∧
    g'.history = g.history ++ [(g.current_player, x, y)] ∧
    ((g'.winner = some g.current_player ∧ g'.current_player = g.current_player) ∨
     (g'.winner = none ∧ g'.current_player = otherColor g.current_player)) := by
  unfold GomokuGame.make_move at h
  split_ifs at h with h1 h2 h3 h4
  all_goals first
    | exact absurd (congrArg Prod.fst h) Bool.false_ne_true
    | (injection h with _ h'
       subst h'
       refine ⟨by assumption, not_not.mp (by assumption),
         Option.not_isSome_iff_eq_none.mp (by assumption), rfl, rfl, rfl, ?_⟩
       first
         | exact Or.inl ⟨rfl, rfl⟩
         | exact Or.inr ⟨Option.not_isSome_iff_eq_none.mp (by assumption), rfl⟩)

/-- The maximal-run predicate along one direction: every multiple of the
direction up to p (starting with the immediate neighbour) matches, and the
(p+1)-st does not.  This is the spec-side notion of the number of
contiguous same-color stones extending outward from (x, y). -/
def runsTo (b : List (List Nat)) (n stone : Nat) (x y dx dy : Int) (p : Nat) : Prop :=
  (∀ j : Nat, 1 ≤ j → j ≤ p → matchesAt b n stone (x + j * dx) (y + j * dy)) ∧
  ¬ matchesAt b n stone (x + (p + 1 : Nat) * dx) (y + (p + 1 : Nat) * dy)

/-- The spec-side description of one axis through (x, y): p contiguous
matching stones outward in the positive direction and q in the negative
direction, both maximal. -/
def axisRun (b : List (List Nat)) (n stone : Nat) (x y : Int) (d : Int × Int)
    (p q : Nat) : Prop :=
  runsTo b n stone x y d.1 d.2 p ∧ runsTo b n stone x y (-d.1) (-d.2) q

lemma countDir_spec (b : List (List Nat)) (n stone : Nat) (dx dy : Int) :
    ∀ (fuel : Nat) (nx ny : Int),
      (∃ j : Nat, j < fuel ∧ ¬ matchesAt b n stone (nx + j * dx) (ny + j * dy)) →
      (∀ j : Nat, j < countDir b n stone dx dy nx ny fuel →
          matchesAt b n stone (nx + j * dx) (ny + j * dy)) ∧
      ¬ matchesAt b n stone (nx + (countDir b n stone dx dy nx ny fuel) * dx)
          (ny + (countDir b n stone dx dy nx ny fuel) * dy) := by
  intro fuel
  induction fuel with
  | zero =>
    intro nx ny h
    rcases h with ⟨j, hj, _⟩
    exact absurd hj (Nat.not_lt_zero j)
  | succ f ih =>
    intro nx ny h
    by_cases hm : matchesAt b n stone nx ny
    · have hex : ∃ j : Nat, j < f ∧
          ¬ matchesAt b n stone ((nx + dx) + j * dx) ((ny + dy) + j * dy) := by
        rcases h with ⟨j, hj, hnm⟩
        cases j with
        | zero =>
          exfalso
          apply hnm
          simpa using hm
        | succ j' =>
          refine ⟨j', by omega, ?_⟩
          have e1 : (nx + dx) + (j' : Int) * dx = nx + ((j' + 1 : Nat) : Int) * dx := by
            push_cast
            ring
          have e2 : (ny + dy) + (j' : Int) * dy = ny + ((j' + 1 : Nat) : Int) * dy := by
            push_cast
            ring
          rw [e1, e2]
          exact hnm
      have hk := ih (nx + dx) (ny + dy) hex
      have hcd : countDir b n stone dx dy nx ny (f + 1)
          = countDir b n stone dx dy (nx + dx) (ny + dy) f + 1 := by
        rw [countDir, if_pos hm]
      rw [hcd]
      constructor
      · intro j hj
        cases j with
        | zero => simpa using hm
        | succ j' =>
          have e1 : nx + ((j' + 1 : Nat) : Int) * dx = (nx + dx) + (j' : Int) * dx := by
            push_cast
            ring
          have e2 : ny + ((j' + 1 : Nat) : Int) * dy = (ny + dy) + (j' : Int) * dy := by
            push_cast
            ring
          rw [e1, e2]
          exact hk.1 j' (by omega)
      · have e1 : nx + ((countDir b n stone dx dy (nx + dx) (ny + dy) f + 1 : Nat) : Int) * dx
            = (nx + dx) + ((countDir b n stone dx dy (nx + dx) (ny + dy) f : Nat) : Int) * dx := by
          push_cast
          ring
        have e2 : ny + ((countDir b n stone dx dy (nx + dx) (ny + dy) f + 1 : Nat) : Int) * dy
            = (ny + dy) + ((countDir b n stone dx dy (nx + dx) (ny + dy) f : Nat) : Int) * dy := by
          push_cast
          ring
        rw [e1, e2]
        exact hk.2
    · have hcd : countDir b n stone dx dy nx ny (f + 1) = 0 := by
        rw [countDir, if_neg hm]
      rw [hcd]
      constructor
      · intro j hj
        exact absurd hj (Nat.not_lt_zero j)
      · simpa using hm

lemma escape_coord (n : Nat) (c s : Int) (hc0 : 0 ≤ c) (hcn : c < (n : Int))
    (hs : s = 1 ∨ s = -1) :
    ∃ j : Nat, j < n ∧ ¬ (0 ≤ c + ((j : Int) + 1) * s ∧ c + ((j : Int) + 1) * s < (n : Int)) := by
  rcases hs with rfl | rfl
  · refine ⟨n - 1 - c.toNat, by omega, ?_⟩
    intro hb
    have := hb.2
    simp only [mul_one] at this
    omega
  · refine ⟨c.toNat, by omega, ?_⟩
    intro hb
    have := hb.1
    simp only [mul_neg, mul_one] at this
    omega

lemma escape_matches (b : List (List Nat)) (n stone : Nat) (x y dx dy : Int)
    (hx0 : 0 ≤ x) (hxn : x < (n : Int)) (hy0 : 0 ≤ y) (hyn : y < (n : Int))
    (hd : dx = 1 ∨ dx = -1 ∨ dy = 1 ∨ dy = -1) :
    ∃ j : Nat, j < n ∧
      ¬ matchesAt b n stone (x + ((j : Int) + 1) * dx) (y + ((j : Int) + 1) * dy) := by
  rcases hd with h | h | h | h
  · rcases escape_coord n x dx hx0 hxn (Or.inl h) with ⟨j, hj, hb⟩
    exact ⟨j, hj, fun hm => hb ⟨hm.1, hm.2.1⟩⟩
  · rcases escape_coord n x dx hx0 hxn (Or.inr h) with ⟨j, hj, hb⟩
    exact ⟨j, hj, fun hm => hb ⟨hm.1, hm.2.1⟩⟩
  · rcases escape_coord n y dy hy0 hyn (Or.inl h) with ⟨j, hj, hb⟩
    exact ⟨j, hj, fun hm => hb ⟨hm.2.2.1, hm.2.2.2.1⟩⟩
  · rcases escape_coord n y dy hy0 hyn (Or.inr h) with ⟨j, hj, hb⟩
    exact ⟨j, hj, fun hm => hb ⟨hm.2.2.1, hm.2.2.2.1⟩⟩

lemma countDir_runsTo (b : List (List Nat)) (n stone : Nat) (x y dx dy : Int)
    (hesc : ∃ j : Nat, j < n ∧
      ¬ matchesAt b n stone (x + ((j : Int) + 1) * dx) (y + ((j : Int) + 1) * dy)) :
    runsTo b n stone x y dx dy (countDir b n stone dx dy (x + dx) (y + dy) n) := by
  have hex : ∃ j : Nat, j < n ∧
      ¬ matchesAt b n stone ((x + dx) + (j : Int) * dx) ((y + dy) + (j : Int) * dy) := by
    rcases hesc with ⟨j, hj, hm⟩
    refine ⟨j, hj, ?_⟩
    have e1 : (x + dx) + (j : Int) * dx = x + ((j : Int) + 1) * dx := by ring
    have e2 : (y + dy) + (j : Int) * dy = y + ((j : Int) + 1) * dy := by ring
    rw [e1, e2]
    exact hm
  have hk := countDir_spec b n stone dx dy n (x + dx) (y + dy) hex
  constructor
  · intro j h1 h2
    have e1 : x + (j : Int) * dx = (x + dx) + ((j - 1 : Nat) : Int) * dx := by
      have : ((j - 1 : Nat) : Int) = (j : Int) - 1 := by omega
      rw [this]
      ring
    have e2 : y + (j : Int) * dy = (y + dy) + ((j - 1 : Nat) : Int) * dy := by
      have : ((j - 1 : Nat) : Int) = (j : Int) - 1 := by omega
      rw [this]
      ring
    rw [e1, e2]
    exact hk.1 (j - 1) (by omega)
  · have e1 : x + ((countDir b n stone dx dy (x + dx) (y + dy) n + 1 : Nat) : Int) * dx
        = (x + dx) + ((countDir b n stone dx dy (x + dx) (y + dy) n : Nat) : Int) * dx := by
      push_cast
      ring
    have e2 : y + ((countDir b n stone dx dy (x + dx) (y + dy) n + 1 : Nat) : Int) * dy
        = (y + dy) + ((countDir b n stone dx dy (x + dx) (y + dy) n : Nat) : Int) * dy := by
      push_cast
      ring
    rw [e1, e2]
    exact hk.2

lemma runsTo_unique (b : List (List Nat)) (n stone : Nat) (x y dx dy : Int)
    (p q : Nat) (hp : runsTo b n stone x y dx dy p) (hq : runsTo b n stone x y dx dy q) :
    p = q := by
  by_contra hne
  rcases Nat.lt_or_ge p q with h | h
  · exact hp.2 (hq.1 (p + 1) (by omega) (by omega))
  · have h2 : q < p := by omega
    exact hq.2 (hp.1 (q + 1) (by omega) (by omega))

lemma directions_units (d : Int × Int) (hd : d ∈ directions) :
    (d.1 = 1 ∨ d.1 = -1 ∨ d.2 = 1 ∨ d.2 = -1) ∧
    (-d.1 = 1 ∨ -d.1 = -1 ∨ -d.2 = 1 ∨ -d.2 = -1) := by
  simp only [directions, List.mem_cons, List.not_mem_nil, or_false] at hd
  rcases hd with rfl | rfl | rfl | rfl <;> norm_num

/-- C1: for a just-placed stone at in-bounds (x, y), _check_win returns
true iff along one of the four axes through (x, y) the total number of
contiguous same-color stones including the new stone is exactly 5; in
particular an axis carrying a longer run does not by itself count. -/
theorem check_win_iff_exactly_five (g : GomokuGame) (x y : Int) (stone : Nat)
    (hx0 : 0 ≤ x) (hxn : x < (g.board_size : Int))
    (hy0 : 0 ≤ y) (hyn : y < (g.board_size : Int)) :
    g.check_win x y stone = true ↔
      ∃ d ∈ directions, ∃ p q : Nat,
        axisRun g.board g.board_size stone x y d p q ∧ 1 + p + q = 5 := by
  constructor
  · intro h
    unfold GomokuGame.check_win at h
    rw [List.any_eq_true] at h
    obtain ⟨d, hd, hbeq⟩ := h
    have h5 : lineTotal g.board g.board_size stone x y d = 5 := by simpa using hbeq
    obtain ⟨hd1, hd2⟩ := directions_units d hd
    have hp' := countDir_runsTo g.board g.board_size stone x y d.1 d.2
      (escape_matches g.board g.board_size stone x y d.1 d.2 hx0 hxn hy0 hyn hd1)
    have hq' := countDir_runsTo g.board g.board_size stone x y (-d.1) (-d.2)
      (escape_matches g.board g.board_size stone x y (-d.1) (-d.2) hx0 hxn hy0 hyn hd2)
    rw [← sub_eq_add_neg, ← sub_eq_add_neg] at hq'
    refine ⟨d, hd, _, _, ⟨hp', hq'⟩, ?_⟩
    unfold lineTotal at h5
    omega
  · rintro ⟨d, hd, p, q, ⟨hpos, hneg⟩, hsum⟩
    obtain ⟨hd1, hd2⟩ := directions_units d hd
    have hp' := countDir_runsTo g.board g.board_size stone x y d.1 d.2
      (escape_matches g.board g.board_size stone x y d.1 d.2 hx0 hxn hy0 hyn hd1)
    have hq' := countDir_runsTo g.board g.board_size stone x y (-d.1) (-d.2)
      (escape_matches g.board g.board_size stone x y (-d.1) (-d.2) hx0 hxn hy0 hyn hd2)
    rw [← sub_eq_add_neg, ← sub_eq_add_neg] at hq'
    have hpe : countDir g.board g.board_size stone d.1 d.2 (x + d.1) (y + d.2) g.board_size = p :=
      runsTo_unique g.board g.board_size stone x y d.1 d.2 _ _ hp' hpos
    have hqe : countDir g.board g.board_size stone (-d.1) (-d.2) (x - d.1) (y - d.2) g.board_size = q :=
      runsTo_unique g.board g.board_size stone x y (-d.1) (-d.2) _ _ hq' hneg
    unfold GomokuGame.check_win
    rw [List.any_eq_true]
    refine ⟨d, hd, ?_⟩
    have h5 : lineTotal g.board g.board_size stone x y d = 5 := by
      unfold lineTotal
      omega
    simpa using h5

/-- Witness for C1 at a concrete input: the completed row of five at
(0, 2) on fiveRowGame satisfies the hypotheses and the equivalence. -/
theorem check_win_iff_exactly_five_witness :
    (0 ≤ (0 : Int)) ∧ ((0 : Int) < (fiveRowGame.board_size : Int)) ∧
    (0 ≤ (2 : Int)) ∧ ((2 : Int) < (fiveRowGame.board_size : Int)) ∧
    (fiveRowGame.check_win 0 2 1 = true ↔
      ∃ d ∈ directions, ∃ p q : Nat,
        axisRun fiveRowGame.board fiveRowGame.board_size 1 0 2 d p q ∧ 1 + p + q = 5) :=
  ⟨by decide, by decide, by decide, by decide,
   check_win_iff_exactly_five fiveRowGame 0 2 1 (by decide) (by decide) (by decide) (by decide)⟩

/-- C3: whenever make_move returns false, the board, history, current
player and winner are all unchanged. -/
theorem make_move_false_no_mutation (g : GomokuGame) (x y : Int)
    (h : (g.make_move x y).1 = false) :
    (g.make_move x y).2.board = g.board ∧
    (g.make_move x y).2.history = g.history ∧
    (g.make_move x y).2.current_player = g.current_player ∧
    (g.make_move x y).2.winner = g.winner := by
  rw [make_move_fail g x y h]
  exact ⟨rfl, rfl, rfl, rfl⟩

/-- Witness for C3 at a concrete input: the out-of-bounds move (5, 5) on a
fresh 3x3 game is rejected and mutates nothing. -/
theorem make_move_false_no_mutation_witness :
    ((newGame 3).make_move 5 5).1 = false ∧
    (((newGame 3).make_move 5 5).2.board = (newGame 3).board ∧
     ((newGame 3).make_move 5 5).2.history = (newGame 3).history ∧
     ((newGame 3).make_move 5 5).2.current_player = (newGame 3).current_player ∧
     ((newGame 3).make_move 5 5).2.winner = (newGame 3).winner) :=
  ⟨by decide, make_move_false_no_mutation (newGame 3) 5 5 (by decide)⟩

lemma players_get_cases (ps : Players) (c : String) :
    ps.get c = ps.black ∨ ps.get c = ps.white := by
  unfold Players.get
  split_ifs
  · exact Or.inl rfl
  · exact Or.inr rfl

lemma runLoop_succ_winner (players : Players) (g : GomokuGame) (fuel : Nat)
    (h : g.winner.isSome) :
    runLoop players g (fuel + 1) = (finishResult players g, g) := by
  rw [runLoop, if_pos h]

lemma runLoop_raise (players : Players) (g : GomokuGame) (fuel : Nat) (e : String)
    (hw : g.winner = none)
    (hs : (players.get g.current_player).1 g.get_board_copy g.current_player
      = StratOut.raise e) :
    runLoop players g (fuel + 1) =
      ({ winner := (players.get (otherColor g.current_player)).2
         error := some ((players.get g.current_player).2 ++ " raised exception: " ++ e)
         players := some players }, g) := by
  rw [runLoop, if_neg (by simp [hw]), hs]

lemma runLoop_malformed (players : Players) (g : GomokuGame) (fuel : Nat) (s : String)
    (hw : g.winner = none)
    (hs : (players.get g.current_player).1 g.get_board_copy g.current_player
      = StratOut.ret (StratVal.malformed s)) :
    runLoop players g (fuel + 1) =
      ({ winner := (players.get (otherColor g.current_player)).2
         error := some ((players.get g.current_player).2 ++ " returned invalid move format: " ++ s)
         players := some players }, g) := by
  rw [runLoop, if_neg (by simp [hw]), hs]

lemma runLoop_badmove (players : Players) (g : GomokuGame) (fuel : Nat) (mx my : Int)
    (hw : g.winner = none)
    (hs : (players.get g.current_player).1 g.get_board_copy g.current_player
      = StratOut.ret (StratVal.pair mx my))
    (g2 : GomokuGame) (hm : g.make_move mx my = (false, g2)) :
    runLoop players g (fuel + 1) =
      ({ winner := (players.get (otherColor g.current_player)).2
         error := some ((players.get g.current_player).2 ++ " made invalid move: ("
           ++ toString mx ++ ", " ++ toString my ++ ")")
         players := some players }, g) := by
  rw [runLoop, if_neg (by simp [hw])]
  simp only [hs, hm]

lemma runLoop_goodmove (players : Players) (g : GomokuGame) (fuel : Nat)
    (mx my : Int) (g1 : GomokuGame)
    (hw : g.winner = none)
    (hs : (players.get g.current_player).1 g.get_board_copy g.current_player
      = StratOut.ret (StratVal.pair mx my))
    (hm : g.make_move mx my = (true, g1)) :
    runLoop players g (fuel + 1) = runLoop players g1 fuel := by
  rw [runLoop, if_neg (by simp [hw])]
  simp only [hs, hm]

lemma runLoop_invariant (players : Players) (P : GomokuGame → Prop)
    (hstep : ∀ g g1 mx my, g.winner = none → P g → g.make_move mx my = (true, g1) → P g1) :
    ∀ (fuel : Nat) (g : GomokuGame), P g → P (runLoop players g fuel).2 := by
  intro fuel
  induction fuel with
  | zero => intro g hP; exact hP
  | succ f ih =>
    intro g hP
    by_cases hw : g.winner.isSome
    · rw [runLoop_succ_winner players g f hw]
      exact hP
    · have hw' : g.winner = none := Option.not_isSome_iff_eq_none.mp hw
      rcases hout : (players.get g.current_player).1 g.get_board_copy g.current_player
        with e | s | ⟨mx, my⟩
      · rw [runLoop_raise players g f e hw' hout]
        exact hP
      · rw [runLoop_malformed players g f s hw' hout]
        exact hP
      · rcases hmm : g.make_move mx my with ⟨b, g2⟩
        cases b
        · rw [runLoop_badmove players g f mx my hw' hout g2 hmm]
          exact hP
        · rw [runLoop_goodmove players g f mx my g2 hw' hout hmm]
          exact ih g2 (hstep g g2 mx my hw' hP hmm)

lemma make_move_WF_step (g : GomokuGame) (x y : Int) (g1 : GomokuGame)
    (hwf : WF g) (h : g.make_move x y = (true, g1)) :
    WF g1 ∧ g1.board_size = g.board_size ∧
    emptyCount g1.board + 1 = emptyCount g.board ∧
    filledCount g1.board = filledCount g.board + 1 ∧
    g1.history.length = g.history.length + 1 := by
  obtain ⟨⟨hx0, hxn, hy0, hyn⟩, hcell, hwin, hboard, hsize, hhist, hdisj⟩ :=
    make_move_success g x y g1 h
  have hlen := hwf.1
  have hi : x.toNat < g.board.length := by omega
  have hrowlen : (g.board.getD x.toNat []).length = g.board_size :=
    hwf.2 _ (getD_mem_of_lt g.board x.toNat hi)
  have hj : y.toNat < (g.board.getD x.toNat []).length := by
    rw [hrowlen]
    omega
  have hstone : stoneOf g.current_player ≠ 0 := by
    unfold stoneOf
    split_ifs <;> simp
  have hec := emptyCount_setCell g.board x.toNat y.toNat (stoneOf g.current_player)
    hi hj hcell hstone
  have hfc := filledCount_setCell g.board x.toNat y.toNat (stoneOf g.current_player)
    hi hj hcell hstone
  refine ⟨⟨?_, ?_⟩, hsize, ?_, ?_, ?_⟩
  · rw [hboard, hsize]
    unfold setCell
    rw [List.length_set]
    exact hwf.1
  · intro row hrow
    rw [hboard] at hrow
    unfold setCell at hrow
    rcases List.mem_or_eq_of_mem_set hrow with hmem | heq
    · rw [hsize]
      exact hwf.2 row hmem
    · rw [hsize, heq, List.length_set]
      exact hrowlen
  · rw [hboard]
    exact hec
  · rw [hboard]
    exact hfc
  · rw [hhist]
    simp

lemma runLoop_error_winner (players : Players) :
    ∀ (fuel : Nat) (g : GomokuGame),
      ((runLoop players g fuel).1.error).isSome = true →
      (runLoop players g fuel).1.winner = players.black.2 ∨
      (runLoop players g fuel).1.winner = players.white.2 := by
  intro fuel
  induction fuel with
  | zero =>
    intro g herr
    exfalso
    rcases hgw : g.winner with _ | w <;>
      simp [runLoop, finishResult, hgw] at herr
  | succ f ih =>
    intro g herr
    by_cases hw : g.winner.isSome
    · exfalso
      rw [runLoop_succ_winner players g f hw] at herr
      rcases hgw : g.winner with _ | w <;>
        simp [finishResult, hgw] at herr
    · have hw' : g.winner = none := Option.not_isSome_iff_eq_none.mp hw
      rcases hout : (players.get g.current_player).1 g.get_board_copy g.current_player
        with e | s | ⟨mx, my⟩
      · rw [runLoop_raise players g f e hw' hout]
        rcases players_get_cases players (otherColor g.current_player) with h | h
        · exact Or.inl (by rw [h])
        · exact Or.inr (by rw [h])
      · rw [runLoop_malformed players g f s hw' hout]
        rcases players_get_cases players (otherColor g.current_player) with h | h
        · exact Or.inl (by rw [h])
        · exact Or.inr (by rw [h])
      · rcases hmm : g.make_move mx my with ⟨b, g2⟩
        cases b
        · rw [runLoop_badmove players g f mx my hw' hout g2 hmm]
          rcases players_get_cases players (otherColor g.current_player) with h | h
          · exact Or.inl (by rw [h])
          · exact Or.inr (by rw [h])
        · rw [runLoop_goodmove players g f mx my g2 hw' hout hmm] at herr ⊢
          exact ih g2 herr

lemma runLoop_draw_spec (players : Players)
    (hbn : players.black.2 ≠ "draw") (hwn : players.white.2 ≠ "draw") :
    ∀ (fuel : Nat) (g : GomokuGame), WF g →
      (runLoop players g fuel).1.winner = "draw" →
      (runLoop players g fuel).2.winner = none ∧
      emptyCount ((runLoop players g fuel).2).board + fuel = emptyCount g.board ∧
      ((runLoop players g fuel).2).history.length = g.history.length + fuel ∧
      (runLoop players g fuel).1.history = some ((runLoop players g fuel).2).history ∧
      WF (runLoop players g fuel).2 := by
  intro fuel
  induction fuel with
  | zero =>
    intro g hwf hdraw
    rcases hgw : g.winner with _ | w
    · refine ⟨hgw, rfl, rfl, ?_, hwf⟩
      simp [runLoop, finishResult, hgw]
    · exfalso
      have : (runLoop players g 0).1.winner = (players.get w).2 := by
        simp [runLoop, finishResult, hgw]
      rw [this] at hdraw
      rcases players_get_cases players w with h | h
      · exact hbn (by rw [← h, hdraw])
      · exact hwn (by rw [← h, hdraw])
  | succ f ih =>
    intro g hwf hdraw
    by_cases hw : g.winner.isSome
    · exfalso
      obtain ⟨w, hgw⟩ := Option.isSome_iff_exists.mp hw
      rw [runLoop_succ_winner players g f hw] at hdraw
      have : (finishResult players g).winner = (players.get w).2 := by
        simp [finishResult, hgw]
      rw [this] at hdraw
      rcases players_get_cases players w with h | h
      · exact hbn (by rw [← h, hdraw])
      · exact hwn (by rw [← h, hdraw])
    · have hw' : g.winner = none := Option.not_isSome_iff_eq_none.mp hw
      rcases hout : (players.get g.current_player).1 g.get_board_copy g.current_player
        with e | s | ⟨mx, my⟩
      · exfalso
        rw [runLoop_raise players g f e hw' hout] at hdraw
        rcases players_get_cases players (otherColor g.current_player) with h | h
        · exact hbn (by rw [← h]; exact hdraw)
        · exact hwn (by rw [← h]; exact hdraw)
      · exfalso
        rw [runLoop_malformed players g f s hw' hout] at hdraw
        rcases players_get_cases players (otherColor g.current_player) with h | h
        · exact hbn (by rw [← h]; exact hdraw)
        · exact hwn (by rw [← h]; exact hdraw)
      · rcases hmm : g.make_move mx my with ⟨b, g2⟩
        cases b
        · exfalso
          rw [runLoop_badmove players g f mx my hw' hout g2 hmm] at hdraw
          rcases players_get_cases players (otherColor g.current_player) with h | h
          · exact hbn (by rw [← h]; exact hdraw)
          · exact hwn (by rw [← h]; exact hdraw)
        · rw [runLoop_goodmove players g f mx my g2 hw' hout hmm] at hdraw ⊢
          obtain ⟨hwf2, _, hec, _, hhl⟩ := make_move_WF_step g mx my g2 hwf hmm
          obtain ⟨h1, h2, h3, h4, h5⟩ := ih g2 hwf2 hdraw
          exact ⟨h1, by omega, by omega, h4, h5⟩

lemma newGame_WF (n : Nat) : WF (newGame n) := by
  constructor
  · simp [newGame]
  · intro row hrow
    simp only [newGame] at hrow
    rw [List.eq_of_mem_replicate hrow]
    simp [newGame]

lemma countP_beq_replicate_zero (n : Nat) :
    (List.replicate n 0).countP (fun c => c == 0) = n := by
  induction n with
  | zero => rfl
  | succ m ih => simp [List.replicate, List.countP_cons, ih]

lemma emptyCount_newGame (n : Nat) : emptyCount (newGame n).board = n * n := by
  unfold emptyCount newGame
  simp only [List.map_replicate, List.sum_replicate, countP_beq_replicate_zero, smul_eq_mul]

lemma is_full_iff_emptyCount (g : GomokuGame) :
    g.is_full = true ↔ emptyCount g.board = 0 := by
  unfold GomokuGame.is_full emptyCount
  rw [List.all_eq_true, List.sum_eq_zero_iff]
  constructor
  · intro h x hx
    rw [List.mem_map] at hx
    obtain ⟨row, hrow, hxeq⟩ := hx
    have := h row hrow
    subst hxeq
    rw [List.countP_eq_zero]
    intro a ha
    simp only [beq_iff_eq]
    intro ha0
    subst ha0
    simp only [Bool.not_eq_true'] at this
    rw [List.contains_eq_any_beq] at this
    rw [List.any_eq_false] at this
    have := this 0 ha
    simp at this
  · intro h row hrow
    have hcount : row.countP (fun c => c == 0) = 0 := by
      apply h
      rw [List.mem_map]
      exact ⟨row, hrow, rfl⟩
    rw [List.countP_eq_zero] at hcount
    simp only [Bool.not_eq_true']
    rw [List.contains_eq_any_beq, List.any_eq_false]
    intro a ha
    simp only [beq_iff_eq]
    intro ha0
    subst ha0
    have := hcount 0 ha
    simp at this

lemma run_game_draw_core (players : Players)
    (hbn : players.black.2 ≠ "draw") (hwn : players.white.2 ≠ "draw") (n : Nat)
    (hd : (runLoop players (newGame n) (n * n)).1.winner = "draw") :
    (runLoop players (newGame n) (n * n)).2.is_full = true ∧
    (runLoop players (newGame n) (n * n)).2.winner = none ∧
    (runLoop players (newGame n) (n * n)).1.history
      = some ((runLoop players (newGame n) (n * n)).2).history ∧
    ((runLoop players (newGame n) (n * n)).2).history.length = n * n := by
  obtain ⟨h1, h2, h3, h4, _⟩ :=
    runLoop_draw_spec players hbn hwn (n * n) (newGame n) (newGame_WF n) hd
  have hstart := emptyCount_newGame n
  have he : emptyCount ((runLoop players (newGame n) (n * n)).2).board = 0 := by omega
  have hh0 : (newGame n).history.length = 0 := rfl
  exact ⟨(is_full_iff_emptyCount _).mpr he, h1, h4, by omega⟩

/-- C4: when run_game between two loaded strategies ends in a draw, the
final board is completely full, no winner was ever set, and the reported
history has exactly board_size * board_size entries. -/
theorem run_game_draw_board_full (p1 p2 : Strategy) (flip : Bool) (n : Nat)
    (hd : (run_game (LoadResult.ok p1) (LoadResult.ok p2) flip n).1.winner = "draw") :
    ∃ g : GomokuGame,
      (run_game (LoadResult.ok p1) (LoadResult.ok p2) flip n).2 = some g ∧
      g.is_full = true ∧ g.winner = none ∧
      (run_game (LoadResult.ok p1) (LoadResult.ok p2) flip n).1.history = some g.history ∧
      g.history.length = n * n := by
  cases flip
  · have hd' : (runLoop (Players.mk (p2, "player2") (p1, "player1")) (newGame n) (n * n)).1.winner
        = "draw" := hd
    have hcore := run_game_draw_core (Players.mk (p2, "player2") (p1, "player1"))
      (show ("player2" : String) ≠ "draw" by decide)
      (show ("player1" : String) ≠ "draw" by decide) n hd'
    exact ⟨_, rfl, hcore.1, hcore.2.1, hcore.2.2.1, hcore.2.2.2⟩
  · have hd' : (runLoop (Players.mk (p1, "player1") (p2, "player2")) (newGame n) (n * n)).1.winner
        = "draw" := hd
    have hcore := run_game_draw_core (Players.mk (p1, "player1") (p2, "player2"))
      (show ("player1" : String) ≠ "draw" by decide)
      (show ("player2" : String) ≠ "draw" by decide) n hd'
    exact ⟨_, rfl, hcore.1, hcore.2.1, hcore.2.2.1, hcore.2.2.2⟩

/-- Witness for C4 at a concrete input: two constant strategies on a 1x1
board fill the board in one move and draw. -/
theorem run_game_draw_board_full_witness :
    (run_game (LoadResult.ok constStrat) (LoadResult.ok constStrat) true 1).1.winner = "draw" ∧
    (∃ g : GomokuGame,
      (run_game (LoadResult.ok constStrat) (LoadResult.ok constStrat) true 1).2 = some g ∧
      g.is_full = true ∧ g.winner = none ∧
      (run_game (LoadResult.ok constStrat) (LoadResult.ok constStrat) true 1).1.history
        = some g.history ∧
      g.history.length = 1 * 1) :=
  ⟨rfl, run_game_draw_board_full constStrat constStrat true 1 rfl⟩

lemma run_loop_last_color (players : Players) (n : Nat) (c : String)
    (h3 : ((runLoop players (newGame n) (n * n)).2).winner = some c) :
    (((runLoop players (newGame n) (n * n)).2).history.getLast?).map (fun m => m.1)
      = some c := by
  refine (runLoop_invariant players
    (fun gg => ∀ cc, gg.winner = some cc →
      (gg.history.getLast?).map (fun m => m.1) = some cc)
    ?_ (n * n) (newGame n) ?_) c h3
  · intro ga g1 mx my hwn _ hmm cc hc
    obtain ⟨_, _, _, _, _, hh1, hd1⟩ := make_move_success ga mx my g1 hmm
    rcases hd1 with ⟨hw1, _⟩ | ⟨hw1, _⟩
    · rw [hw1] at hc
      injection hc with hcc
      rw [hh1, List.getLast?_concat]
      simp [hcc]
    · rw [hw1] at hc
      exact absurd hc (by simp)
  · intro cc hcc
    simp [newGame] at hcc

/-- C5: a winning move sets the winner to the mover without flipping the
turn, and the winning move is the last history entry; consequently a
finished match whose winner is color c has c as the color of the last
history entry. -/
theorem win_keeps_turn_and_last_history (g : GomokuGame) (x y : Int) (g' : GomokuGame)
    (h : g.make_move x y = (true, g')) (hw : g'.winner.isSome = true)
    (p1 p2 : Strategy) (flip : Bool) (n : Nat) (gf : GomokuGame) (c : String)
    (h2 : (run_game (LoadResult.ok p1) (LoadResult.ok p2) flip n).2 = some gf)
    (h3 : gf.winner = some c) :
    g'.winner = some g.current_player ∧ g'.current_player = g.current_player ∧
    g'.history.getLast? = some (g.current_player, x, y) ∧
    (gf.history.getLast?).map (fun m => m.1) = some c := by
  obtain ⟨_, _, _, _, _, hhist, hdisj⟩ := make_move_success g x y g' h
  have hpart : g'.winner = some g.current_player ∧ g'.current_player = g.current_player := by
    rcases hdisj with ⟨hw1, hc1⟩ | ⟨hw1, _⟩
    · exact ⟨hw1, hc1⟩
    · rw [hw1] at hw
      simp at hw
  refine ⟨hpart.1, hpart.2, ?_, ?_⟩
  · rw [hhist]
    exact List.getLast?_concat g.history
  · cases flip
    · have h2' : some ((runLoop (Players.mk (p2, "player2") (p1, "player1"))
          (newGame n) (n * n)).2) = some gf := h2
      injection h2' with h2''
      rw [← h2''] at h3 ⊢
      exact run_loop_last_color _ n c h3
    · have h2' : some ((runLoop (Players.mk (p1, "player1") (p2, "player2"))
          (newGame n) (n * n)).2) = some gf := h2
      injection h2' with h2''
      rw [← h2''] at h3 ⊢
      exact run_loop_last_color _ n c h3

/-- Witness for C5 at concrete inputs: completing five in a row at (0, 4)
from fourRowGame, and a scripted 5x5 match that black wins with the last
history entry black. -/
theorem win_keeps_turn_and_last_history_witness :
    fourRowGame.make_move 0 4 = (true, (fourRowGame.make_move 0 4).2) ∧
    ((fourRowGame.make_move 0 4).2).winner.isSome = true ∧
    (run_game (LoadResult.ok scriptStrat) (LoadResult.ok scriptStrat) true 5).2
      = some ((runLoop (Players.mk (scriptStrat, "player1") (scriptStrat, "player2"))
          (newGame 5) (5 * 5)).2) ∧
    ((runLoop (Players.mk (scriptStrat, "player1") (scriptStrat, "player2"))
        (newGame 5) (5 * 5)).2).winner = some "black" ∧
    ((fourRowGame.make_move 0 4).2.winner = some fourRowGame.current_player ∧
     (fourRowGame.make_move 0 4).2.current_player = fourRowGame.current_player ∧
     (fourRowGame.make_move 0 4).2.history.getLast? = some (fourRowGame.current_player, 0, 4) ∧
     (((runLoop (Players.mk (scriptStrat, "player1") (scriptStrat, "player2"))
         (newGame 5) (5 * 5)).2).history.getLast?).map (fun m => m.1) = some "black") := by
  refine ⟨by decide, by decide, rfl, rfl, ?_⟩
  exact win_keeps_turn_and_last_history fourRowGame 0 4 (fourRowGame.make_move 0 4).2
    (by decide) (by decide) scriptStrat scriptStrat true 5
    ((runLoop (Players.mk (scriptStrat, "player1") (scriptStrat, "player2"))
      (newGame 5) (5 * 5)).2) "black" rfl rfl

/-- C2: whenever the active strategy faults — raising, returning a
malformed value, or returning a coordinate rejected by make_move — the
run_game loop terminates at once with the opposing color's player declared
winner, an error recorded, no history key, and the game state untouched;
moreover any run_game result carrying an error names player1 or player2 as
winner, never a draw. -/
theorem invocation_fault_ends_match (players : Players) (g : GomokuGame) (fuel : Nat)
    (hw : g.winner = none)
    (hfault :
      (∃ e, (players.get g.current_player).1 g.get_board_copy g.current_player
        = StratOut.raise e) ∨
      (∃ s, (players.get g.current_player).1 g.get_board_copy g.current_player
        = StratOut.ret (StratVal.malformed s)) ∨
      (∃ mx my, (players.get g.current_player).1 g.get_board_copy g.current_player
        = StratOut.ret (StratVal.pair mx my) ∧ (g.make_move mx my).1 = false))
    (l1 l2 : LoadResult) (flip : Bool) (n : Nat)
    (herr : ((run_game l1 l2 flip n).1.error).isSome = true) :
    (runLoop players g (fuel + 1)).1.winner = (players.get (otherColor g.current_player)).2 ∧
    ((runLoop players g (fuel + 1)).1.error).isSome = true ∧
    (runLoop players g (fuel + 1)).1.history = none ∧
    (runLoop players g (fuel + 1)).2 = g ∧
    ((run_game l1 l2 flip n).1.winner = "player1" ∨
     (run_game l1 l2 flip n).1.winner = "player2") := by
  have hlast : (run_game l1 l2 flip n).1.winner = "player1" ∨
      (run_game l1 l2 flip n).1.winner = "player2" := by
    rcases l1 with p1 | e1
    · rcases l2 with p2 | e2
      · cases flip
        · have herr' : ((runLoop (Players.mk (p2, "player2") (p1, "player1"))
              (newGame n) (n * n)).1.error).isSome = true := herr
          rcases runLoop_error_winner (Players.mk (p2, "player2") (p1, "player1"))
            (n * n) (newGame n) herr' with hcase | hcase
          · exact Or.inr hcase
          · exact Or.inl hcase
        · have herr' : ((runLoop (Players.mk (p1, "player1") (p2, "player2"))
              (newGame n) (n * n)).1.error).isSome = true := herr
          rcases runLoop_error_winner (Players.mk (p1, "player1") (p2, "player2"))
            (n * n) (newGame n) herr' with hcase | hcase
          · exact Or.inl hcase
          · exact Or.inr hcase
      · exact Or.inl rfl
    · exact Or.inr rfl
  rcases hfault with ⟨e, hs⟩ | ⟨s, hs⟩ | ⟨mx, my, hs, hm⟩
  · rw [runLoop_raise players g fuel e hw hs]
    exact ⟨rfl, rfl, rfl, rfl, hlast⟩
  · rw [runLoop_malformed players g fuel s hw hs]
    exact ⟨rfl, rfl, rfl, rfl, hlast⟩
  · rcases hmm : g.make_move mx my with ⟨b, g2⟩
    have hb : b = false := by
      rw [hmm] at hm
      exact hm
    subst hb
    rw [runLoop_badmove players g fuel mx my hw hs g2 hmm]
    exact ⟨rfl, rfl, rfl, rfl, hlast⟩

/-- Witness for C2 at a concrete input: a strategy that raises on a fresh
3x3 game, and a load failure producing an error result. -/
theorem invocation_fault_ends_match_witness :
    (newGame 3).winner = none ∧
    ((run_game (LoadResult.err "nofile") (LoadResult.ok constStrat) true 3).1.error).isSome
      = true ∧
    ((runLoop (Players.mk (raiseStrat, "player1") (constStrat, "player2"))
        (newGame 3) 1).1.winner
      = ((Players.mk (raiseStrat, "player1") (constStrat, "player2")).get
          (otherColor (newGame 3).current_player)).2 ∧
     ((runLoop (Players.mk (raiseStrat, "player1") (constStrat, "player2"))
        (newGame 3) 1).1.error).isSome = true ∧
     (runLoop (Players.mk (raiseStrat, "player1") (constStrat, "player2"))
        (newGame 3) 1).1.history = none ∧
     (runLoop (Players.mk (raiseStrat, "player1") (constStrat, "player2"))
        (newGame 3) 1).2 = newGame 3 ∧
     ((run_game (LoadResult.err "nofile") (LoadResult.ok constStrat) true 3).1.winner = "player1" ∨
      (run_game (LoadResult.err "nofile") (LoadResult.ok constStrat) true 3).1.winner = "player2")) := by
  refine ⟨rfl, rfl, ?_⟩
  exact invocation_fault_ends_match (Players.mk (raiseStrat, "player1") (constStrat, "player2"))
    (newGame 3) 0 rfl (Or.inl ⟨"boom", rfl⟩)
    (LoadResult.err "nofile") (LoadResult.ok constStrat) true 3 rfl

lemma applyMoves_spec : ∀ (ms : List (Int × Int)) (g : GomokuGame),
    WF g → g.history.length = filledCount g.board →
    WF (applyMoves g ms) ∧ (applyMoves g ms).board_size = g.board_size ∧
    (applyMoves g ms).history.length = filledCount (applyMoves g ms).board := by
  intro ms
  induction ms with
  | nil => intro g h1 h2; exact ⟨h1, rfl, h2⟩
  | cons m t ih =>
    intro g h1 h2
    have hstep : applyMoves g (m :: t) = applyMoves (g.make_move m.1 m.2).2 t := rfl
    cases hb : (g.make_move m.1 m.2).1
    · rw [hstep, make_move_fail g m.1 m.2 hb]
      exact ih g h1 h2
    · rcases hmm : g.make_move m.1 m.2 with ⟨bb, g2⟩
      have hbb : bb = true := by
        rw [hmm] at hb
        exact hb
      subst hbb
      obtain ⟨hwf2, hsize2, _, hfc, hhl⟩ := make_move_WF_step g m.1 m.2 g2 h1 hmm
      have h2' : g2.history.length = filledCount g2.board := by omega
      have hrec := ih g2 hwf2 h2'
      rw [hstep, hmm]
      exact ⟨hrec.1, by rw [hrec.2.1, hsize2], hrec.2.2⟩

lemma sum_map_le (f : List Nat → Nat) :
    ∀ (b : List (List Nat)) (k : Nat), (∀ row ∈ b, f row ≤ k) →
      (b.map f).sum ≤ b.length * k := by
  intro b
  induction b with
  | nil => intro k _; simp
  | cons a t ih =>
    intro k h
    simp only [List.map_cons, List.sum_cons, List.length_cons]
    have h1 := h a (by simp)
    have h2 := ih k (fun row hr => h row (by simp [hr]))
    calc f a + (t.map f).sum ≤ k + t.length * k := by omega
    _ = (t.length + 1) * k := by ring

lemma filledCount_le (g : GomokuGame) (hwf : WF g) :
    filledCount g.board ≤ g.board_size * g.board_size := by
  unfold filledCount
  have h := sum_map_le (fun row => row.countP fun c => ! (c == 0)) g.board g.board_size
    (fun row hr => le_trans (List.countP_le_length _) (le_of_eq (hwf.2 row hr)))
  rw [hwf.1] at h
  exact h

lemma countP_nbeq_replicate_zero (n : Nat) :
    (List.replicate n 0).countP (fun c => ! (c == 0)) = 0 := by
  induction n with
  | zero => rfl
  | succ m ih => simp [List.replicate, List.countP_cons, ih]

lemma filledCount_newGame (n : Nat) : filledCount (newGame n).board = 0 := by
  unfold filledCount newGame
  simp only [List.map_replicate, List.sum_replicate, countP_nbeq_replicate_zero,
    smul_eq_mul, Nat.mul_zero]

/-- C6: after any sequence of attempt_move calls on a fresh n x n game,
the history length equals the number of non-empty cells on the board, and
never exceeds n * n. -/
theorem history_length_eq_filled_cells (n : Nat) (ms : List (Int × Int)) :
    (applyMoves (newGame n) ms).history.length
      = filledCount ((applyMoves (newGame n) ms).board) ∧
    (applyMoves (newGame n) ms).history.length ≤ n * n := by
  have hinit : (newGame n).history.length = filledCount (newGame n).board := by
    rw [filledCount_newGame]
    rfl
  obtain ⟨hwf, hsize, heq⟩ := applyMoves_spec ms (newGame n) (newGame_WF n) hinit
  refine ⟨heq, ?_⟩
  rw [heq]
  have hle := filledCount_le (applyMoves (newGame n) ms) hwf
  have hsz : (applyMoves (newGame n) ms).board_size = n := hsize
  rw [hsz] at hle
  exact hle

lemma find?_split {α : Type} (p : α → Bool) :
    ∀ (l : List α) (a : α), l.find? p = some a →
      p a = true ∧ ∃ l1 l2, l = l1 ++ a :: l2 ∧ ∀ x ∈ l1, p x = false := by
  intro l
  induction l with
  | nil => intro a h; simp at h
  | cons hd t ih =>
    intro a h
    cases hph : p hd
    · rw [List.find?_cons_of_neg _ (by simp [hph])] at h
      obtain ⟨hpa, l1, l2, heq, hall⟩ := ih a h
      refine ⟨hpa, hd :: l1, l2, by rw [heq]; rfl, ?_⟩
      intro x hx
      rcases List.mem_cons.mp hx with rfl | hx2
      · exact hph
      · exact hall x hx2
    · rw [List.find?_cons_of_pos _ hph] at h
      injection h with h'
      subst h'
      exact ⟨hph, [], t, rfl, by simp⟩

lemma mem_rowMajorCells (n : Nat) (q : Nat × Nat) :
    q ∈ rowMajorCells n ↔ q.1 < n ∧ q.2 < n := by
  unfold rowMajorCells
  rcases q with ⟨a, b⟩
  simp only [List.mem_flatMap, List.mem_map, List.mem_range, Prod.mk.injEq]
  constructor
  · rintro ⟨xx, hxx, yy, hyy, rfl, rfl⟩
    exact ⟨hxx, hyy⟩
  · rintro ⟨ha, hb⟩
    exact ⟨a, ha, b, hb, rfl, rfl⟩

lemma find_winning_move_some (board : List (List Nat)) (stone n : Nat) (m : Nat × Nat)
    (h : find_winning_move board stone n = some m) :
    m.1 < n ∧ m.2 < n ∧ cell board m.1 m.2 = 0 ∧
    is_winning_move board m.1 m.2 stone n = true ∧
    (∃ pre post, rowMajorCells n = pre ++ m :: post ∧
      ∀ p ∈ pre, ¬ (cell board p.1 p.2 = 0 ∧ is_winning_move board p.1 p.2 stone n = true)) := by
  unfold find_winning_move at h
  have hmem := (mem_rowMajorCells n m).mp (List.mem_of_find?_eq_some h)
  have hp := List.find?_some h
  simp only [Bool.and_eq_true, beq_iff_eq] at hp
  obtain ⟨_, l1, l2, heq, hall⟩ := find?_split _ _ _ h
  refine ⟨hmem.1, hmem.2, hp.1, hp.2, l1, l2, heq, ?_⟩
  intro p hpre hcontra
  have hfx := hall p hpre
  simp [hcontra.1, hcontra.2] at hfx

lemma find_winning_move_none (board : List (List Nat)) (stone n : Nat)
    (h : find_winning_move board stone n = none) :
    ∀ x y, x < n → y < n →
      ¬ (cell board x y = 0 ∧ is_winning_move board x y stone n = true) := by
  unfold find_winning_move at h
  rw [List.find?_eq_none] at h
  intro x y hx hy hc
  have hmem : ((x, y) : Nat × Nat) ∈ rowMajorCells n :=
    (mem_rowMajorCells n (x, y)).mpr ⟨hx, hy⟩
  have := h (x, y) hmem
  simp [hc.1, hc.2] at this

lemma find_winning_move_isSome (board : List (List Nat)) (stone n : Nat) (x y : Nat)
    (hx : x < n) (hy : y < n) (hc : cell board x y = 0)
    (hwin : is_winning_move board x y stone n = true) :
    ∃ m, find_winning_move board stone n = some m := by
  cases hfw : find_winning_move board stone n
  · exact absurd ⟨hc, hwin⟩ (find_winning_move_none board stone n hfw x y hx hy)
  · exact ⟨_, rfl⟩

lemma foldl_preserve {α β : Type} (f : β → α → β) (P : β → Prop) :
    ∀ (l : List α) (b : β), P b → (∀ bb aa, aa ∈ l → P bb → P (f bb aa)) →
      P (l.foldl f b) := by
  intro l
  induction l with
  | nil => intro b hb _; exact hb
  | cons a t ih =>
    intro b hb hstep
    exact ih (f b a) (hstep b a (by simp) hb)
      (fun bb aa haa hbb => hstep bb aa (by simp [haa]) hbb)

lemma bestFold_mem (board : List (List Nat)) (my_stone opp_stone n : Nat) :
    ∀ p ∈ (bestFold board my_stone opp_stone n).2,
      p.1 < n ∧ p.2 < n ∧ cell board p.1 p.2 = 0 := by
  unfold bestFold
  refine foldl_preserve _
    (fun acc => ∀ p ∈ acc.2, p.1 < n ∧ p.2 < n ∧ cell board p.1 p.2 = 0)
    (rowMajorCells n) ((-1 : Int), ([] : List (Nat × Nat))) ?_ ?_
  · intro p hp
    simp at hp
  · intro acc pos hposmem hacc
    have hbounds := (mem_rowMajorCells n pos).mp hposmem
    split_ifs with h1 h2 h3 h4
    · exact hacc
    · intro p hp
      simp only [List.mem_singleton] at hp
      subst hp
      exact ⟨hbounds.1, hbounds.2, h1⟩
    · intro p hp
      rcases List.mem_append.mp hp with hp2 | hp2
      · exact hacc p hp2
      · simp only [List.mem_singleton] at hp2
        subst hp2
        exact ⟨hbounds.1, hbounds.2, h1⟩
    · exact hacc
    · exact hacc

lemma bestFold_nil_of_full (board : List (List Nat)) (my_stone opp_stone n : Nat)
    (hfull : ∀ x y, x < n → y < n → cell board x y ≠ 0) :
    (bestFold board my_stone opp_stone n).2 = [] := by
  unfold bestFold
  have h := foldl_preserve
    (fun acc pos =>
      if cell board pos.1 pos.2 = 0 then
        if ! has_neighbor board pos.1 pos.2 n then acc
        else if evaluate_position board pos.1 pos.2 my_stone opp_stone n > acc.1 then
          (evaluate_position board pos.1 pos.2 my_stone opp_stone n, [pos])
        else if evaluate_position board pos.1 pos.2 my_stone opp_stone n = acc.1 then
          (acc.1, acc.2 ++ [pos])
        else acc
      else acc)
    (fun acc => acc.2 = []) (rowMajorCells n) ((-1 : Int), ([] : List (Nat × Nat))) rfl
  apply h
  intro bb aa haa hbb
  have hbounds := (mem_rowMajorCells n aa).mp haa
  dsimp only
  rw [if_neg (hfull aa.1 aa.2 hbounds.1 hbounds.2)]
  exact hbb

lemma find_best_move_some (board : List (List Nat)) (my_stone opp_stone n : Nat)
    (choice : List (Nat × Nat) → Nat × Nat) (m : Nat × Nat)
    (hch : ∀ l, l ≠ [] → choice l ∈ l)
    (h : find_best_move board my_stone opp_stone n choice = some m) :
    m.1 < n ∧ m.2 < n ∧ cell board m.1 m.2 = 0 := by
  unfold find_best_move at h
  split_ifs at h with he
  have hm : m ∈ (bestFold board my_stone opp_stone n).2 := by
    have hc := hch _ he
    injection h with h'
    rw [← h']
    exact hc
  exact bestFold_mem board my_stone opp_stone n m hm

lemma find_best_move_none_of_full (board : List (List Nat)) (my_stone opp_stone n : Nat)
    (choice : List (Nat × Nat) → Nat × Nat)
    (hfull : ∀ x y, x < n → y < n → cell board x y ≠ 0) :
    find_best_move board my_stone opp_stone n choice = none := by
  unfold find_best_move
  rw [dif_pos (bestFold_nil_of_full board my_stone opp_stone n hfull)]

/-- C7: when the evaluator's own color has a one-placement win, get_move
returns the first winning cell in row-major scan order, regardless of the
scoring stages; when no own win exists but the opponent has one, get_move
returns the first such blocking cell in the same scan order. -/
theorem evaluator_win_block_precedence
    (board1 board2 : List (List Nat)) (color1 color2 : String)
    (choice1 choice2 : List (Nat × Nat) → Nat × Nat)
    (x1 y1 : Nat) (b2 : Nat × Nat)
    (h1 : x1 < board1.length ∧ y1 < board1.length ∧ cell board1 x1 y1 = 0 ∧
      is_winning_move board1 x1 y1 (stoneOf color1) board1.length = true)
    (h2 : find_winning_move board2 (stoneOf color2) board2.length = none)
    (h3 : find_winning_move board2 (oppStoneOf color2) board2.length = some b2) :
    (∃ m, find_winning_move board1 (stoneOf color1) board1.length = some m ∧
      get_move board1 color1 choice1 = m ∧
      cell board1 m.1 m.2 = 0 ∧
      is_winning_move board1 m.1 m.2 (stoneOf color1) board1.length = true ∧
      firstInScan board1 (stoneOf color1) m) ∧
    (get_move board2 color2 choice2 = b2 ∧
      cell board2 b2.1 b2.2 = 0 ∧
      is_winning_move board2 b2.1 b2.2 (oppStoneOf color2) board2.length = true ∧
      firstInScan board2 (oppStoneOf color2) b2) := by
  constructor
  · obtain ⟨m, hm⟩ := find_winning_move_isSome board1 (stoneOf color1) board1.length
      x1 y1 h1.1 h1.2.1 h1.2.2.1 h1.2.2.2
    obtain ⟨_, _, hc, hw, pre, post, heq, hall⟩ :=
      find_winning_move_some board1 (stoneOf color1) board1.length m hm
    refine ⟨m, hm, ?_, hc, hw, pre, post, heq, hall⟩
    unfold get_move
    rw [hm]
  · obtain ⟨_, _, hc, hw, pre, post, heq, hall⟩ :=
      find_winning_move_some board2 (oppStoneOf color2) board2.length b2 h3
    refine ⟨?_, hc, hw, pre, post, heq, hall⟩
    unfold get_move
    simp only [h2, h3]

/-- Witness for C7 at concrete inputs: on winBoard black wins at (0, 4);
on blockBoard black has no win and blocks white at (0, 4). -/
theorem evaluator_win_block_precedence_witness :
    (0 < winBoard.length ∧ 4 < winBoard.length ∧ cell winBoard 0 4 = 0 ∧
      is_winning_move winBoard 0 4 (stoneOf "black") winBoard.length = true) ∧
    find_winning_move blockBoard (stoneOf "black") blockBoard.length = none ∧
    find_winning_move blockBoard (oppStoneOf "black") blockBoard.length = some (0, 4) ∧
    ((∃ m, find_winning_move winBoard (stoneOf "black") winBoard.length = some m ∧
      get_move winBoard "black" (fun _ => (9, 9)) = m ∧
      cell winBoard m.1 m.2 = 0 ∧
      is_winning_move winBoard m.1 m.2 (stoneOf "black") winBoard.length = true ∧
      firstInScan winBoard (stoneOf "black") m) ∧
    (get_move blockBoard "black" (fun _ => (9, 9)) = (0, 4) ∧
      cell blockBoard 0 4 = 0 ∧
      is_winning_move blockBoard 0 4 (oppStoneOf "black") blockBoard.length = true ∧
      firstInScan blockBoard (oppStoneOf "black") (0, 4))) :=
  ⟨by decide, by decide, by decide,
   evaluator_win_block_precedence winBoard blockBoard "black" "black"
     (fun _ => (9, 9)) (fun _ => (9, 9)) 0 4 (0, 4)
     (by decide) (by decide) (by decide)⟩

/-- C10: on a square board with at least one empty cell, get_move returns
an in-bounds empty cell of that board, so the reference strategy never
commits a legality fault; on a square nonempty board with no empty cell,
get_move returns the placeholder (0, 0). -/
theorem get_move_returns_empty_cell
    (b1 b2 : List (List Nat)) (color1 color2 : String)
    (choice1 choice2 : List (Nat × Nat) → Nat × Nat)
    (hch1 : ∀ l, l ≠ [] → choice1 l ∈ l)
    (_hsq1 : ∀ row ∈ b1, row.length = b1.length)
    (_hsq2 : ∀ row ∈ b2, row.length = b2.length)
    (x0 y0 : Nat)
    (he1 : x0 < b1.length ∧ y0 < b1.length ∧ cell b1 x0 y0 = 0)
    (hn2 : 0 < b2.length)
    (hf2 : ∀ x y, x < b2.length → y < b2.length → cell b2 x y ≠ 0) :
    ((get_move b1 color1 choice1).1 < b1.length ∧
     (get_move b1 color1 choice1).2 < b1.length ∧
     cell b1 (get_move b1 color1 choice1).1 (get_move b1 color1 choice1).2 = 0) ∧
    get_move b2 color2 choice2 = (0, 0) := by
  constructor
  · unfold get_move
    cases hfw1 : find_winning_move b1 (stoneOf color1) b1.length with
    | some m =>
      dsimp only
      obtain ⟨ha, hb, hc, _, _⟩ := find_winning_move_some b1 (stoneOf color1) b1.length m hfw1
      exact ⟨ha, hb, hc⟩
    | none =>
      dsimp only
      cases hfw2 : find_winning_move b1 (oppStoneOf color1) b1.length with
      | some m =>
        dsimp only
        obtain ⟨ha, hb, hc, _, _⟩ :=
          find_winning_move_some b1 (oppStoneOf color1) b1.length m hfw2
        exact ⟨ha, hb, hc⟩
      | none =>
        dsimp only
        cases hbm : find_best_move b1 (stoneOf color1) (oppStoneOf color1) b1.length choice1 with
        | some m =>
          dsimp only
          exact find_best_move_some b1 (stoneOf color1) (oppStoneOf color1) b1.length
            choice1 m hch1 hbm
        | none =>
          dsimp only
          by_cases hcen : cell b1 (b1.length / 2) (b1.length / 2) = 0
          · rw [if_pos hcen]
            have hlen : 0 < b1.length := by
              have := he1.1
              omega
            exact ⟨Nat.div_lt_self hlen one_lt_two,
              Nat.div_lt_self hlen one_lt_two, hcen⟩
          · rw [if_neg hcen]
            have hmem : (x0, y0) ∈ emptyCells b1 b1.length := by
              unfold emptyCells
              rw [List.mem_filter]
              exact ⟨(mem_rowMajorCells b1.length (x0, y0)).mpr ⟨he1.1, he1.2.1⟩,
                by simp [he1.2.2]⟩
            have hne : emptyCells b1 b1.length ≠ [] := by
              intro hnil
              rw [hnil] at hmem
              simp at hmem
            rw [dif_neg hne]
            obtain ⟨hmm, hpp⟩ := List.mem_filter.mp (hch1 _ hne)
            have hb := (mem_rowMajorCells b1.length (choice1 (emptyCells b1 b1.length))).mp hmm
            exact ⟨hb.1, hb.2, by simpa using hpp⟩
  · have hnone : ∀ stone, find_winning_move b2 stone b2.length = none := by
      intro stone
      cases hfw : find_winning_move b2 stone b2.length with
      | none => rfl
      | some m =>
        obtain ⟨ha, hb, hc, _, _⟩ := find_winning_move_some b2 stone b2.length m hfw
        exact absurd hc (hf2 m.1 m.2 ha hb)
    unfold get_move
    rw [hnone (stoneOf color2), hnone (oppStoneOf color2),
      find_best_move_none_of_full b2 (stoneOf color2) (oppStoneOf color2) b2.length choice2 hf2]
    dsimp only
    rw [if_neg (hf2 (b2.length / 2) (b2.length / 2)
      (Nat.div_lt_self hn2 one_lt_two) (Nat.div_lt_self hn2 one_lt_two))]
    have hnil : emptyCells b2 b2.length = [] := by
      unfold emptyCells
      rw [List.filter_eq_nil_iff]
      intro a ha
      have hb := (mem_rowMajorCells b2.length a).mp ha
      simp [hf2 a.1 a.2 hb.1 hb.2]
    rw [dif_pos hnil]

/-- Witness for C10 at concrete inputs: winBoard has the empty cell
(0, 4); the full 1x1 board [[1]] yields the (0, 0) placeholder. -/
theorem get_move_returns_empty_cell_witness :
    (0 < winBoard.length ∧ 4 < winBoard.length ∧ cell winBoard 0 4 = 0) ∧
    (0 < ([[1]] : List (List Nat)).length) ∧
    (((get_move winBoard "black" (fun l => l.headD (9, 9))).1 < winBoard.length ∧
      (get_move winBoard "black" (fun l => l.headD (9, 9))).2 < winBoard.length ∧
      cell winBoard (get_move winBoard "black" (fun l => l.headD (9, 9))).1
        (get_move winBoard "black" (fun l => l.headD (9, 9))).2 = 0) ∧
     get_move ([[1]] : List (List Nat)) "white" (fun l => l.headD (9, 9)) = (0, 0)) := by
  refine ⟨by decide, by decide, ?_⟩
  exact get_move_returns_empty_cell winBoard [[1]] "black" "white"
    (fun l => l.headD (9, 9)) (fun l => l.headD (9, 9))
    (by
      intro l hl
      cases l with
      | nil => exact absurd rfl hl
      | cons a t => simp)
    (by
      intro row hrow
      simp only [winBoard, List.mem_cons, List.not_mem_nil, or_false] at hrow
      rcases hrow with rfl | rfl | rfl | rfl | rfl <;> decide)
    (by
      intro row hrow
      simp only [List.mem_cons, List.not_mem_nil, or_false] at hrow
      rw [hrow]
      decide)
    0 4 (by decide) (by decide)
    (by
      intro x y hx hy
      have hx0 : x = 0 := by
        simp only [List.length_cons, List.length_nil] at hx
        omega
      have hy0 : y = 0 := by
        simp only [List.length_cons, List.length_nil] at hy
        omega
      subst hx0
      subst hy0
      decide)

/-- C8: evaluation of count_line and evaluate_position at the failing
input.  The candidate (0, 0) on oppChainBoard sits directly next to a
white chain of length 4 on the (0, 1) axis, yet count_line reports an
opponent count of 1 — each directional walk stops after the first
opponent stone it meets — so the +5000 defensive branch never fires and
the cell's total score stays far below 5000. -/
theorem count_line_stops_at_first_opponent_stone :
    count_line oppChainBoard 0 0 0 1 1 2 7 = (0, 1, 0) ∧
    evaluate_position oppChainBoard 0 0 1 2 7 < 5000 := by
  exact ⟨by decide, by decide⟩

/-- C9 counterexample: with an output directory configured, the match
decided by a failed strategy load produces no persisted log, because its
result dict has no players key. -/
theorem load_fault_match_not_logged :
    roundLog (some "logs") 1
      (run_game (LoadResult.err "nofile") (LoadResult.ok constStrat) true 15).1
      "p1" "p2" "ts" = none := rfl

/-- C9 (amended): when an output directory is configured and the match
result carries player assignments, exactly one log is written for the
match; it contains both per-color assignments, the declared winner, the
fault description when a fault occurred, and the full ordered move
history when the result carries one. -/
theorem log_written_when_players_present
    (outputDir : Option String) (game_num : Nat) (result : GameResult) (ps : Players)
    (p1 p2 ts : String)
    (ho : outputDir.isSome = true) (hp : result.players = some ps) :
    roundLog outputDir game_num result p1 p2 ts
      = some (write_game_log game_num result ps p1 p2 ts) ∧
    (∀ color ∈ (["black", "white"] : List String),
      LogLine.assignment color (ps.get color).2
        (if (ps.get color).2 = "player1" then p1 else p2)
        ∈ write_game_log game_num result ps p1 p2 ts) ∧
    LogLine.resultLine result.winner ∈ write_game_log game_num result ps p1 p2 ts ∧
    (∀ e, result.error = some e →
      LogLine.errorLine e ∈ write_game_log game_num result ps p1 p2 ts) ∧
    (∀ h, result.history = some h → ∀ mi ∈ h.enum,
      LogLine.historyMove (mi.1 + 1) mi.2.1 mi.2.2.1 mi.2.2.2
        ∈ write_game_log game_num result ps p1 p2 ts) := by
  refine ⟨?_, ?_, ?_, ?_, ?_⟩
  · unfold roundLog
    obtain ⟨d, hd⟩ := Option.isSome_iff_exists.mp ho
    rw [hd, hp]
  · intro color hcolor
    unfold write_game_log
    exact List.mem_append_left _ (List.mem_append_left _ (List.mem_append_left _
      (List.mem_append_left _ (List.mem_append_right _
        (List.mem_map.mpr ⟨color, hcolor, rfl⟩)))))
  · unfold write_game_log
    exact List.mem_append_left _ (List.mem_append_left _ (List.mem_append_left _
      (List.mem_append_right _ (by simp))))
  · intro e he
    unfold write_game_log
    rw [he]
    exact List.mem_append_left _ (List.mem_append_left _
      (List.mem_append_right _ (by simp)))
  · intro h hh mi hmi
    unfold write_game_log
    rw [hh]
    exact List.mem_append_left _ (List.mem_append_right _
      (List.mem_cons_of_mem _ (List.mem_map.mpr ⟨mi, hmi, rfl⟩)))

/-- Witness for C9 (amended) at a concrete input: a faulted result with
players, an error and a one-move history is logged once. -/
theorem log_written_when_players_present_witness :
    ((some "logs" : Option String)).isSome = true ∧
    (GameResult.mk "player1" (some "oops") (some [("black", 0, 0)])
      (some (Players.mk (constStrat, "player1") (constStrat, "player2")))).players
      = some (Players.mk (constStrat, "player1") (constStrat, "player2")) ∧
    roundLog (some "logs") 1
      (GameResult.mk "player1" (some "oops") (some [("black", 0, 0)])
        (some (Players.mk (constStrat, "player1") (constStrat, "player2"))))
      "p1" "p2" "ts"
      = some (write_game_log 1
          (GameResult.mk "player1" (some "oops") (some [("black", 0, 0)])
            (some (Players.mk (constStrat, "player1") (constStrat, "player2"))))
          (Players.mk (constStrat, "player1") (constStrat, "player2")) "p1" "p2" "ts") :=
  ⟨rfl, rfl,
   (log_written_when_players_present (some "logs") 1
     (GameResult.mk "player1" (some "oops") (some [("black", 0, 0)])
       (some (Players.mk (constStrat, "player1") (constStrat, "player2"))))
     (Players.mk (constStrat, "player1") (constStrat, "player2"))
     "p1" "p2" "ts" rfl rfl).1⟩
